import Mathlib

/-!
Verification development for the online-chess rules engine core
(`src/GameLogic/piece.h`, `src/GameLogic/game.hpp`).

The repository currently ships only the two headers: the data model
(`Color`, `Type`, `Piece`, `Position`, `Player`, `GameState`, `Cell`,
`Game`) is present, the `Game` constructor is implemented inline
(game.hpp line 75), but every other member function — the per-piece
`availableMoves` overrides, the board builders, `movePieceFrom`,
`movePieceTo`, `switchPlayer`, `isTheGameOver` — is declared without a
body.  Definitions below that embed those missing bodies are modelled
from the specification (spec.md) and carry a doc comment saying so.
-/

-- Source: `using Position = std::pair<int, int>` (piece.h line 40, game.hpp line 11).
abbrev Position := Int × Int

-- Source: `enum class Player { WHITE, BLACK }` (game.hpp lines 14-18).
inductive Player where
  | WHITE
  | BLACK
  deriving DecidableEq, Repr

-- Source: `enum class Color { WHITE, BLACK }` (piece.h lines 19-23).
inductive Color where
  | WHITE
  | BLACK
  deriving DecidableEq, Repr

-- Source: `enum class Type { KING, QUEEN, ROOK, BISHOP, KNIGHT, PAWN }`
-- (piece.h lines 25-33); `Type` is reserved in Lean, hence `PieceType`.
inductive PieceType where
  | KING
  | QUEEN
  | ROOK
  | BISHOP
  | KNIGHT
  | PAWN
  deriving DecidableEq, Repr

-- Source: `enum class GameState { RUNNING, CHECKMATE, STALEMATE, DRAW }`
-- (game.hpp lines 21-27).
inductive GameState where
  | RUNNING
  | CHECKMATE
  | STALEMATE
  | DRAW
  deriving DecidableEq, Repr

/-- Error kinds of spec.md section 7; the header bodies that would raise
them are absent from src, so the set is taken from the spec verbatim. -/
inductive MoveError where
  | OutOfRange
  | EmptySource
  | EmptyCell
  | WrongTurn
  | IllegalDestination
  | GameOver
  | ProtocolViolation
  deriving DecidableEq, Repr

-- Source: `class Piece { Color color; Type type; Position position; ... }`
-- (piece.h lines 35-104); getters getColor/getType/getPosition are the
-- field projections.
structure Piece where
  color : Color
  type : PieceType
  position : Position
  deriving DecidableEq, Repr

-- Source: `struct Cell { Piece *piece; Position position; }`
-- (game.hpp lines 30-34); the possibly-null pointer becomes an Option.
structure Cell where
  piece : Option Piece
  position : Position
  deriving DecidableEq

-- Source: `const int SIZE = 8` (game.hpp line 37).
abbrev SIZE : Nat := 8

-- Source: `using Board = std::vector<std::vector<std::unique_ptr<Piece>>>`
-- (game.hpp line 42): an 8 by 8 grid of optional occupants, embedded as a
-- total function from in-range indices.
abbrev Board := Fin SIZE × Fin SIZE → Option Piece

-- Source: `Player player <-> Color` correspondence; the two enums are
-- structurally identical and the headers compare a piece color with the
-- active player, so the evident bijection is used.
def colorOf : Player → Color
  | .WHITE => .WHITE
  | .BLACK => .BLACK

def otherPlayer : Player → Player
  | .WHITE => .BLACK
  | .BLACK => .WHITE

/-- Position of an in-range board index, as the (row, column) Int pair. -/
def posOf (i : Fin SIZE × Fin SIZE) : Position := ((i.1.val : Int), (i.2.val : Int))

/-- Bounds test of spec.md section 3: each coordinate lies in [0, 7]. -/
def inBounds (pos : Position) : Bool :=
  decide (0 ≤ pos.1 ∧ pos.1 < 8 ∧ 0 ≤ pos.2 ∧ pos.2 < 8)

/-- Conversion of an in-range position to a board index; `none` when out
of range. -/
def idxOf? (pos : Position) : Option (Fin SIZE × Fin SIZE) :=
  if h : 0 ≤ pos.1 ∧ pos.1 < 8 ∧ 0 ≤ pos.2 ∧ pos.2 < 8 then
    some (⟨pos.1.toNat, by simp only [SIZE]; omega⟩, ⟨pos.2.toNat, by simp only [SIZE]; omega⟩)
  else none

/-- Occupant lookup that is total: out-of-range positions read as empty.
Used by the movement rules, which probe neighbouring squares freely. -/
def pieceAt (b : Board) (pos : Position) : Option Piece :=
  match idxOf? pos with
  | some i => b i
  | none => none

/-- Pointwise update of one board cell. -/
def Board.set (b : Board) (i : Fin SIZE × Fin SIZE) (v : Option Piece) : Board :=
  fun k => if k = i then v else b k

/-- All 64 board indices, row-major. -/
def allIdx : List (Fin SIZE × Fin SIZE) :=
  (List.finRange SIZE).flatMap fun r => (List.finRange SIZE).map fun c => (r, c)

/-- Modelled from the spec: `Board::move` of spec.md section 4.1 (the
Board mutators are absent from src).  Total core of the move: capture
whatever sits at `dst`, relocate the piece from `src`, and update its
recorded position to `dst`; out-of-range or empty-source requests leave
the board unchanged (the fallible wrapper below reports those). -/
def Board.moveApply (b : Board) (src dst : Position) : Board :=
  match idxOf? src, idxOf? dst with
  | some i, some j =>
    match b i with
    | some p => (b.set i none).set j (some { p with position := posOf j })
    | none => b
  | _, _ => b

/-- Modelled from the spec: `move(from, to)` of spec.md section 4.1 with
its `OutOfRange` / `EmptySource` failures (absent from src). -/
def Board.move (b : Board) (src dst : Position) : Except MoveError Board :=
  match idxOf? src, idxOf? dst with
  | some i, some _ =>
    match b i with
    | some _ => .ok (Board.moveApply b src dst)
    | none => .error .EmptySource
  | _, _ => .error .OutOfRange

/-- Modelled from the spec: `place(piece, position)` of spec.md section
4.1 (absent from src).  The Board is the single source of truth for a
piece location (spec.md section 3), so placing records the target cell
as the piece position. -/
def Board.place (b : Board) (p : Piece) (pos : Position) : Except MoveError Board :=
  match idxOf? pos with
  | some i => .ok (b.set i (some { p with position := posOf i }))
  | none => .error .OutOfRange

/-- Modelled from the spec: `remove(position)` of spec.md section 4.1
(absent from src). -/
def Board.remove (b : Board) (pos : Position) : Except MoveError Board :=
  match idxOf? pos with
  | some i => .ok (b.set i none)
  | none => .error .OutOfRange

/-- Modelled from the spec: `occupantAt(position)` of spec.md section
4.1 (absent from src). -/
def occupantAt (b : Board) (pos : Position) : Except MoveError (Option Piece) :=
  match idxOf? pos with
  | some i => .ok (b i)
  | none => .error .OutOfRange

/-- True when the square holds a piece of the given color. -/
def sameColorAt (b : Board) (c : Color) (q : Position) : Bool :=
  match pieceAt b q with
  | some t => decide (t.color = c)
  | none => false

/-- True when the square holds a piece of the opposite color. -/
def enemyAt (b : Board) (c : Color) (q : Position) : Bool :=
  match pieceAt b q with
  | some t => decide (t.color ≠ c)
  | none => false

/-- True when the square is on the board and unoccupied. -/
def emptyAt (b : Board) (q : Position) : Bool :=
  inBounds q && (pieceAt b q).isNone

/-- Fixed-offset destinations (king, knight): each offset is applied
once, kept when in bounds and not blocked by a same-color piece. -/
def stepMoves (b : Board) (c : Color) (pos : Position) (offs : List (Int × Int)) :
    List Position :=
  (offs.map fun d => (pos.1 + d.1, pos.2 + d.2)).filter fun q =>
    inBounds q && !(sameColorAt b c q)

def kingOffsets : List (Int × Int) :=
  [(-1, -1), (-1, 0), (-1, 1), (0, -1), (0, 1), (1, -1), (1, 0), (1, 1)]

def knightOffsets : List (Int × Int) :=
  [(-2, -1), (-2, 1), (-1, -2), (-1, 2), (1, -2), (1, 2), (2, -1), (2, 1)]

/-- Sliding ray: walk from `pos` in direction `d`, stopping at the first
occupied square — inclusive when it holds an enemy (capture), exclusive
when it holds a same-color piece.  Fuel 7 exhausts any 8-wide board. -/
def ray (b : Board) (c : Color) (pos : Position) (d : Int × Int) : Nat → List Position
  | 0 => []
  | n + 1 =>
    let q := (pos.1 + d.1, pos.2 + d.2)
    if inBounds q then
      match pieceAt b q with
      | none => q :: ray b c q d n
      | some t => if t.color = c then [] else [q]
    else []

def rookDirs : List (Int × Int) := [(-1, 0), (1, 0), (0, -1), (0, 1)]

def bishopDirs : List (Int × Int) := [(-1, -1), (-1, 1), (1, -1), (1, 1)]

def slideMoves (b : Board) (c : Color) (pos : Position) (dirs : List (Int × Int)) :
    List Position :=
  dirs.flatMap fun d => ray b c pos d 7

/-- Modelled from the spec: the PAWN rule of spec.md section 4.2 (no
pawn subclass exists in src).  WHITE sits on rows 6-7 and advances
toward row 0, BLACK advances toward row 7; one square forward when
empty, two from the starting rank when both are empty, diagonal capture
onto enemy-occupied squares only.  The en passant extension needs the
last-move context the Turn Controller would provide and is not modelled;
no claim under verification depends on it. -/
def pawnMoves (b : Board) (p : Piece) : List Position :=
  let dir : Int := match p.color with | .WHITE => -1 | .BLACK => 1
  let startRow : Int := match p.color with | .WHITE => 6 | .BLACK => 1
  let r := p.position.1
  let c := p.position.2
  let one : Position := (r + dir, c)
  let two : Position := (r + 2 * dir, c)
  let fwd : List Position :=
    if emptyAt b one then
      one :: (if r = startRow then (if emptyAt b two then [two] else []) else [])
    else []
  let caps : List Position :=
    ([(r + dir, c - 1), (r + dir, c + 1)] : List Position).filter fun q =>
      enemyAt b p.color q
  fwd ++ caps

/-- Modelled from the spec: `Piece::availableMoves` (piece.h line 97) is
pure virtual and none of the six subclasses exist in src; the per-kind
raw candidate geometry is taken from spec.md section 4.2.  Raw moves
deliberately ignore king safety (that is the Legality Filter concern). -/
def Piece.availableMoves (p : Piece) (b : Board) : List Position :=
  match p.type with
  | .KING => stepMoves b p.color p.position kingOffsets
  | .QUEEN =>
      slideMoves b p.color p.position rookDirs ++ slideMoves b p.color p.position bishopDirs
  | .ROOK => slideMoves b p.color p.position rookDirs
  | .BISHOP => slideMoves b p.color p.position bishopDirs
  | .KNIGHT => stepMoves b p.color p.position knightOffsets
  | .PAWN => pawnMoves b p

/-- Modelled from the spec: the attack test of spec.md section 4.3 —
attacked means some enemy piece raw moves include the square (absent
from src). -/
def isAttacked (b : Board) (c : Color) (sq : Position) : Bool :=
  allIdx.any fun i =>
    match b i with
    | some q => decide (q.color ≠ c) && decide (sq ∈ q.availableMoves b)
    | none => false

/-- Modelled from the spec: king lookup used by the check test (absent
from src). -/
def findKing (b : Board) (c : Color) : Option Position :=
  (allIdx.find? fun i =>
    match b i with
    | some q => decide (q.color = c) && decide (q.type = PieceType.KING)
    | none => false).map posOf

/-- Modelled from the spec: the simulate-then-test step of spec.md
section 4.3 — apply the candidate on a snapshot (copying is implicit in
a pure embedding) and test whether the mover king is attacked there. -/
def leavesKingAttacked (b : Board) (p : Piece) (m : Position) : Bool :=
  match findKing (Board.moveApply b p.position m) p.color with
  | some ksq => isAttacked (Board.moveApply b p.position m) p.color ksq
  | none => false

/-- Modelled from the spec: `legalMoves` of spec.md section 4.3 (absent
from src): keep exactly the raw candidates that do not leave the mover
king attacked.  The castling and en passant synthesis layered on top in
the spec needs move history and is not modelled; no claim under
verification depends on it. -/
def legalMoves (b : Board) (p : Piece) : List Position :=
  (p.availableMoves b).filter fun m => !(leavesKingAttacked b p m)

/-- Modelled from the spec: check sub-flag of spec.md section 4.4
(absent from src). -/
def inCheck (b : Board) (c : Color) : Bool :=
  match findKing b c with
  | some ksq => isAttacked b c ksq
  | none => false

/-- Modelled from the spec: the any-legal-move scan of spec.md section
4.4 (absent from src). -/
def hasAnyLegalMove (b : Board) (c : Color) : Bool :=
  allIdx.any fun i =>
    match b i with
    | some q => decide (q.color = c) && !(legalMoves b q).isEmpty
    | none => false

/-- Modelled from the spec: the optional auxiliary draw conditions
(insufficient material, repetition, no-progress counter) that spec.md
section 4.4 tells a reimplementer to stub as explicit hooks; stubbed to
false, so the mandatory decision table governs. -/
def drawConditionHook (_b : Board) (_c : Color) : Bool :=
  false

/-- Modelled from the spec: `classify(board, playerToMove)` of spec.md
section 4.4 (absent from src), the mandatory decision table. -/
def classify (b : Board) (c : Color) : GameState :=
  if drawConditionHook b c then .DRAW
  else if hasAnyLegalMove b c then .RUNNING
  else if inCheck b c then .CHECKMATE
  else .STALEMATE

/-- Modelled from the spec: the back rank file order is not fixed by
spec.md section 3 (it gives the multiset KING/QUEEN/ROOK x2/BISHOP x2/
KNIGHT x2); the conventional chess order is used. -/
def backRank (c : Nat) : PieceType :=
  if c = 0 ∨ c = 7 then .ROOK
  else if c = 1 ∨ c = 6 then .KNIGHT
  else if c = 2 ∨ c = 5 then .BISHOP
  else if c = 3 then .QUEEN
  else .KING

/-- Modelled from the spec: `Game::getInitialGameBoard` (game.hpp line
69) is declared without a body, as are the two chunk builders it
composes; the layout follows spec.md section 3 and the diagram at
game.hpp lines 52-61 — BLACK full set on rows 0-1, WHITE mirrored set on
rows 6-7, rows 2-5 empty.  (The prose comments on the chunk getters at
game.hpp lines 62-66 label the rows the other way round, contradicting
the diagram directly above them; the spec follows the diagram.) -/
def getInitialGameBoard : Board := fun i =>
  if i.1.val = 0 then some ⟨.BLACK, backRank i.2.val, posOf i⟩
  else if i.1.val = 1 then some ⟨.BLACK, .PAWN, posOf i⟩
  else if i.1.val = 6 then some ⟨.WHITE, .PAWN, posOf i⟩
  else if i.1.val = 7 then some ⟨.WHITE, backRank i.2.val, posOf i⟩
  else none

/-- Source: `class Game` (game.hpp lines 38-102) with members `_board`,
`_player`, `_gameState`.  The `pending` field is modelled from the spec:
the two-phase Turn Controller state of spec.md sections 4.5 and 5 (the
SelectSource / SelectDestination machine) has no member in the header
and no implementation in src; it records the source square and legal
destination set of a successful source selection. -/
structure Game where
  _board : Board
  _player : Player
  _gameState : GameState
  pending : Option (Position × List Position)

/-- Source: the `Game` constructor (game.hpp line 75): initial board,
WHITE to move, RUNNING state.  A fresh game has no pending selection. -/
def Game.new : Game :=
  { _board := getInitialGameBoard
    _player := .WHITE
    _gameState := .RUNNING
    pending := none }

-- Source: `getGameBoard` / `getPlayer` declarations (game.hpp lines
-- 95-98); bodies absent, modelled as the evident projections.
def getGameBoard (g : Game) : Board := g._board

def getPlayer (g : Game) : Player := g._player

/-- Modelled from the spec: `isTheGameOver` (game.hpp line 101) has no
body; spec.md section 6 fixes it as true iff the state is not RUNNING. -/
def isTheGameOver (g : Game) : Bool :=
  decide (g._gameState ≠ GameState.RUNNING)

/-- Modelled from the spec: `switchPlayer` (game.hpp line 72) has no
body; it toggles the active player and reports the switch as a message
(an observable event with no failure mode, spec.md section 4.5). -/
def switchPlayer (g : Game) : String × Game :=
  ("Player switched", { g with _player := otherPlayer g._player })

/-- Modelled from the spec: `movePieceFrom` (game.hpp line 85) has no
body; the SelectSource phase of spec.md section 4.5.  Fails with
OutOfRange outside the board, EmptyCell when no piece is there,
WrongTurn when the piece color differs from the active player, GameOver
when the state is terminal (in the order the spec lists them); on
success it returns the legal destination set, transitioning to
SelectDestination exactly when that set is nonempty. -/
def movePieceFrom (g : Game) (cell : Cell) : Except MoveError (List Position) × Game :=
  if inBounds cell.position then
    match pieceAt g._board cell.position with
    | none => (.error .EmptyCell, g)
    | some p =>
      if p.color ≠ colorOf g._player then (.error .WrongTurn, g)
      else if g._gameState ≠ GameState.RUNNING then (.error .GameOver, g)
      else
        let moves := legalMoves g._board p
        (.ok moves,
          { g with pending := if moves.isEmpty then none else some (cell.position, moves) })
  else (.error .OutOfRange, g)

/-- Modelled from the spec: `movePieceTo` (game.hpp line 92) has no
body; the SelectDestination phase of spec.md section 4.5.  Without a
pending source selection it fails with ProtocolViolation; a destination
outside the previously returned set fails with IllegalDestination; on
success it applies the move to the board, switches the active player,
re-runs the Game State Evaluator, stores and returns the resulting
classification. -/
def movePieceTo (g : Game) (cell : Cell) : Except MoveError GameState × Game :=
  match g.pending with
  | none => (.error .ProtocolViolation, g)
  | some sd =>
    if cell.position ∈ sd.2 then
      let g1 := (switchPlayer
        { g with _board := Board.moveApply g._board sd.1 cell.position, pending := none }).2
      let st := classify g1._board (colorOf g1._player)
      (.ok st, { g1 with _gameState := st })
    else (.error .IllegalDestination, g)

/-- Reachable game states: the fresh game, closed under both public
mutating operations. -/
inductive Reachable : Game → Prop where
  | start : Reachable Game.new
  | stepFrom (g : Game) (cell : Cell) : Reachable g → Reachable (movePieceFrom g cell).2
  | stepTo (g : Game) (cell : Cell) : Reachable g → Reachable (movePieceTo g cell).2

/-- Board invariant of spec.md section 3: every stored piece records the
coordinates of the cell holding it. -/
def BoardInv (b : Board) : Prop :=
  ∀ i p, b i = some p → p.position = posOf i

/-- Attack predicate, stated as the spec words it: some enemy piece raw
moves include the square. -/
def AttackedP (b : Board) (c : Color) (sq : Position) : Prop :=
  ∃ i q, b i = some q ∧ q.color ≠ c ∧ sq ∈ q.availableMoves b

/-- The king of color `c` stands somewhere and is attacked there. -/
def KingAttackedP (b : Board) (c : Color) : Prop :=
  ∃ ksq, findKing b c = some ksq ∧ AttackedP b c ksq

/-- Applying the candidate `m` of piece `p` leaves the mover king
attacked in the resulting position. -/
def KingAttackedAfterP (b : Board) (p : Piece) (m : Position) : Prop :=
  KingAttackedP (Board.moveApply b p.position m) p.color

/-- Some piece of color `c` on the board has a nonempty legal move
set. -/
def HasLegalMoveP (b : Board) (c : Color) : Prop :=
  ∃ i q, b i = some q ∧ q.color = c ∧ legalMoves b q ≠ []

theorem mem_allIdx (i : Fin SIZE × Fin SIZE) : i ∈ allIdx := by
  unfold allIdx
  rw [List.mem_flatMap]
  exact ⟨i.1, List.mem_finRange i.1, List.mem_map.mpr ⟨i.2, List.mem_finRange i.2, rfl⟩⟩

theorem posOf_idxOf (pos : Position) (i : Fin SIZE × Fin SIZE)
    (h : idxOf? pos = some i) : posOf i = pos := by
  unfold idxOf? at h
  split at h
  · injection h with h
    subst h
    obtain ⟨a, b⟩ := pos
    simp only [posOf, Prod.mk.injEq]
    constructor <;> omega
  · exact Option.noConfusion h

theorem isAttacked_iff (b : Board) (c : Color) (sq : Position) :
    isAttacked b c sq = true ↔ AttackedP b c sq := by
  unfold isAttacked AttackedP
  rw [List.any_eq_true]
  constructor
  · rintro ⟨i, -, hi⟩
    cases hbi : b i with
    | none => rw [hbi] at hi; exact absurd hi (by simp)
    | some q =>
      rw [hbi] at hi
      simp only [Bool.and_eq_true, decide_eq_true_eq] at hi
      exact ⟨i, q, hbi, hi.1, hi.2⟩
  · rintro ⟨i, q, hbi, h1, h2⟩
    refine ⟨i, mem_allIdx i, ?_⟩
    rw [hbi]
    simp only [Bool.and_eq_true, decide_eq_true_eq]
    exact ⟨h1, h2⟩

theorem inCheck_iff (b : Board) (c : Color) :
    inCheck b c = true ↔ KingAttackedP b c := by
  unfold inCheck KingAttackedP
  cases hk : findKing b c with
  | none => simp
  | some ksq => simp [isAttacked_iff]

theorem hasAnyLegalMove_iff (b : Board) (c : Color) :
    hasAnyLegalMove b c = true ↔ HasLegalMoveP b c := by
  unfold hasAnyLegalMove HasLegalMoveP
  rw [List.any_eq_true]
  constructor
  · rintro ⟨i, -, hi⟩
    cases hbi : b i with
    | none => rw [hbi] at hi; exact absurd hi (by simp)
    | some q =>
      rw [hbi] at hi
      simp only [Bool.and_eq_true, decide_eq_true_eq, Bool.not_eq_true',
        List.isEmpty_eq_false_iff_exists_mem] at hi
      refine ⟨i, q, hbi, hi.1, ?_⟩
      obtain ⟨x, hx⟩ := hi.2
      intro hnil
      rw [hnil] at hx
      exact List.not_mem_nil x hx
  · rintro ⟨i, q, hbi, h1, h2⟩
    refine ⟨i, mem_allIdx i, ?_⟩
    rw [hbi]
    simp only [Bool.and_eq_true, decide_eq_true_eq, Bool.not_eq_true']
    refine ⟨h1, ?_⟩
    cases hl : legalMoves b q with
    | nil => exact absurd hl h2
    | cons x xs => rfl

theorem leavesKingAttacked_iff (b : Board) (p : Piece) (m : Position) :
    leavesKingAttacked b p m = true ↔ KingAttackedAfterP b p m := by
  unfold leavesKingAttacked KingAttackedAfterP KingAttackedP
  cases hk : findKing (Board.moveApply b p.position m) p.color with
  | none => simp
  | some ksq => simp [isAttacked_iff]

theorem boardInv_set_some (b : Board) (i : Fin SIZE × Fin SIZE) (p : Piece)
    (h : BoardInv b) (hp : p.position = posOf i) :
    BoardInv (b.set i (some p)) := by
  intro k q hk
  unfold Board.set at hk
  by_cases hki : k = i
  · rw [if_pos hki] at hk
    injection hk with hk
    subst hk
    rw [hp, hki]
  · rw [if_neg hki] at hk
    exact h k q hk

theorem boardInv_set_none (b : Board) (i : Fin SIZE × Fin SIZE)
    (h : BoardInv b) : BoardInv (b.set i none) := by
  intro k q hk
  unfold Board.set at hk
  by_cases hki : k = i
  · rw [if_pos hki] at hk
    exact Option.noConfusion hk
  · rw [if_neg hki] at hk
    exact h k q hk

theorem boardInv_moveApply (b : Board) (src dst : Position) (h : BoardInv b) :
    BoardInv (Board.moveApply b src dst) := by
  unfold Board.moveApply
  split
  · split
    · exact boardInv_set_some _ _ _ (boardInv_set_none _ _ h) rfl
    · exact h
  · exact h

theorem boardInv_initial : BoardInv getInitialGameBoard := by
  intro i p h
  unfold getInitialGameBoard at h
  repeat' split at h
  all_goals
    first
      | (injection h with h; subst h; rfl)
      | exact Option.noConfusion h

theorem movePieceFrom_board (g : Game) (cell : Cell) :
    (movePieceFrom g cell).2._board = g._board := by
  unfold movePieceFrom
  split
  · split
    · rfl
    · split
      · rfl
      · split
        · rfl
        · rfl
  · rfl

theorem movePieceTo_board (g : Game) (cell : Cell) :
    (movePieceTo g cell).2._board = g._board ∨
      ∃ src, (movePieceTo g cell).2._board =
        Board.moveApply g._board src cell.position := by
  unfold movePieceTo
  split
  · exact Or.inl rfl
  · next sd _ =>
    split
    · exact Or.inr ⟨sd.1, rfl⟩
    · exact Or.inl rfl

theorem inBounds_of_pieceAt (b : Board) (pos : Position) (p : Piece)
    (h : pieceAt b pos = some p) : inBounds pos = true := by
  unfold pieceAt at h
  cases hi : idxOf? pos with
  | none => rw [hi] at h; exact Option.noConfusion h
  | some i =>
    unfold idxOf? at hi
    split at hi
    · next hcond => exact decide_eq_true hcond
    · exact Option.noConfusion hi

/-- Board with every cell empty; scaffolding for concrete test positions. -/
def emptyBoard : Board := fun _ => none

/-- Two lone kings, far apart: WHITE king on (7,4), BLACK king on (0,4). -/
def twoKingsBoard : Board :=
  (emptyBoard.set (7, 4) (some ⟨.WHITE, .KING, (7, 4)⟩)).set (0, 4)
    (some ⟨.BLACK, .KING, (0, 4)⟩)

/-- Two kings plus a WHITE rook on (4,0). -/
def rookBoard : Board := twoKingsBoard.set (4, 0) (some ⟨.WHITE, .ROOK, (4, 0)⟩)

/-- Running game on `twoKingsBoard`, WHITE to move, no pending selection. -/
def twoKingsGame : Game :=
  { _board := twoKingsBoard
    _player := .WHITE
    _gameState := .RUNNING
    pending := none }

/-- Running game on `rookBoard` in the SelectDestination phase: the rook
on (4,0) was selected and (4,7) is among its returned destinations. -/
def rookGame : Game :=
  { _board := rookBoard
    _player := .WHITE
    _gameState := .RUNNING
    pending := some ((4, 0), [((4, 7) : Position)]) }

def rookCell : Cell := ⟨none, (4, 7)⟩

/-- Resulting game of the rook move accepted by `rookGame`. -/
def rookGame2 : Game := (movePieceTo rookGame rookCell).2

def blackKingCell : Cell := ⟨none, (0, 4)⟩

/-- C10: every freshly constructed Game starts with activePlayer WHITE
and state RUNNING, so WHITE moves first and a new game is never
terminal. -/
theorem game_new_white_running :
    getPlayer Game.new = Player.WHITE ∧ Game.new._gameState = GameState.RUNNING ∧
      isTheGameOver Game.new = false :=
  ⟨rfl, rfl, rfl⟩

/-- C9: calling movePieceTo with no pending source selection (the
SelectSource phase, in particular any out-of-order destination
selection) fails with ProtocolViolation and applies no move. -/
theorem movePieceTo_without_selection (g : Game) (cell : Cell)
    (hp : g.pending = none) :
    (movePieceTo g cell).1 = .error .ProtocolViolation ∧
      (movePieceTo g cell).2 = g := by
  unfold movePieceTo
  rw [hp]
  exact ⟨rfl, rfl⟩

theorem movePieceTo_without_selection_witness :
    (movePieceTo twoKingsGame blackKingCell).1 = .error .ProtocolViolation ∧
      (movePieceTo twoKingsGame blackKingCell).2 = twoKingsGame :=
  movePieceTo_without_selection twoKingsGame blackKingCell rfl

/-- C6: a successfully applied move in a non-terminal game toggles the
active player exactly once, WHITE to BLACK and BLACK to WHITE. -/
theorem otherPlayer_ne (p : Player) : otherPlayer p ≠ p := by
  cases p <;> decide

theorem movePieceTo_toggles_player (g : Game) (cell : Cell) (st : GameState)
    (g2 : Game) (_hrun : g._gameState = GameState.RUNNING)
    (h : movePieceTo g cell = (.ok st, g2)) :
    g2._player = otherPlayer g._player ∧ g2._player ≠ g._player := by
  unfold movePieceTo at h
  split at h
  · simp only [Prod.mk.injEq] at h
    exact Except.noConfusion h.1
  · split at h
    · simp only [Prod.mk.injEq] at h
      rw [← h.2]
      exact ⟨rfl, otherPlayer_ne g._player⟩
    · simp only [Prod.mk.injEq] at h
      exact Except.noConfusion h.1

theorem movePieceTo_toggles_player_witness :
    rookGame2._player = otherPlayer rookGame._player ∧
      rookGame2._player ≠ rookGame._player :=
  movePieceTo_toggles_player rookGame rookCell .RUNNING rookGame2 rfl (by rfl)

/-- C4: a successful movePieceTo returns exactly the classification the
Game State Evaluator produces on the resulting position (the updated
board, for the new active player), and stores it as the game state. -/
theorem movePieceTo_returns_classification (g : Game) (cell : Cell)
    (st : GameState) (g2 : Game) (h : movePieceTo g cell = (.ok st, g2)) :
    st = classify g2._board (colorOf g2._player) ∧ g2._gameState = st := by
  unfold movePieceTo at h
  split at h
  · simp only [Prod.mk.injEq] at h
    exact Except.noConfusion h.1
  · split at h
    · simp only [Prod.mk.injEq] at h
      obtain ⟨h1, h2⟩ := h
      injection h1 with h1
      rw [← h2, ← h1]
      exact ⟨rfl, rfl⟩
    · simp only [Prod.mk.injEq] at h
      exact Except.noConfusion h.1

theorem movePieceTo_returns_classification_witness :
    GameState.RUNNING = classify rookGame2._board (colorOf rookGame2._player) ∧
      rookGame2._gameState = GameState.RUNNING :=
  movePieceTo_returns_classification rookGame rookCell .RUNNING rookGame2 (by rfl)

/-- C7: movePieceFrom fails with WrongTurn exactly when the selected
cell holds a piece whose color differs from the active player — every
such selection fails that way (whatever the game state), and WrongTurn
arises under no other condition. -/
theorem movePieceFrom_wrongTurn_iff (g : Game) (cell : Cell) :
    (∀ p, pieceAt g._board cell.position = some p →
      p.color ≠ colorOf g._player →
      (movePieceFrom g cell).1 = .error .WrongTurn ∧
        (movePieceFrom g cell).2 = g) ∧
    ((movePieceFrom g cell).1 = .error .WrongTurn →
      ∃ p, pieceAt g._board cell.position = some p ∧
        p.color ≠ colorOf g._player) := by
  constructor
  · intro p hp hc
    unfold movePieceFrom
    split
    · split
      · next heq => rw [hp] at heq; exact Option.noConfusion heq
      · next p2 heq =>
        rw [hp] at heq
        injection heq with heq
        subst heq
        split
        · exact ⟨rfl, rfl⟩
        · next hcn => exact absurd hc hcn
    · next hbn => exact absurd (inBounds_of_pieceAt _ _ _ hp) hbn
  · intro h
    unfold movePieceFrom at h
    split at h
    · split at h
      · exact absurd h (by simp)
      · next p hp =>
        split at h
        · next hc => exact ⟨p, hp, hc⟩
        · split at h
          · exact absurd h (by simp)
          · exact absurd h (by simp)
    · exact absurd h (by simp)

theorem movePieceFrom_wrongTurn_iff_witness :
    (movePieceFrom twoKingsGame blackKingCell).1 = .error .WrongTurn ∧
      (movePieceFrom twoKingsGame blackKingCell).2 = twoKingsGame :=
  (movePieceFrom_wrongTurn_iff twoKingsGame blackKingCell).1
    ⟨.BLACK, .KING, (0, 4)⟩ (by rfl) (by decide)

/-- C8: every error outcome of the two public mutating operations leaves
the whole Game — board, active player, state and protocol phase —
exactly as it was before the call. -/
theorem movePieceFrom_ok_or_unchanged (g : Game) (cell : Cell) :
    (∃ v, (movePieceFrom g cell).1 = .ok v) ∨ (movePieceFrom g cell).2 = g := by
  unfold movePieceFrom
  split
  · split
    · exact Or.inr rfl
    · split
      · exact Or.inr rfl
      · split
        · exact Or.inr rfl
        · exact Or.inl ⟨_, rfl⟩
  · exact Or.inr rfl

theorem movePieceTo_ok_or_unchanged (g : Game) (cell : Cell) :
    (∃ v, (movePieceTo g cell).1 = .ok v) ∨ (movePieceTo g cell).2 = g := by
  unfold movePieceTo
  split
  · exact Or.inr rfl
  · split
    · exact Or.inl ⟨_, rfl⟩
    · exact Or.inr rfl

theorem failed_ops_leave_game_unchanged (g : Game) (cell : Cell) (e : MoveError) :
    ((movePieceFrom g cell).1 = .error e → (movePieceFrom g cell).2 = g) ∧
    ((movePieceTo g cell).1 = .error e → (movePieceTo g cell).2 = g) := by
  constructor
  · intro h
    rcases movePieceFrom_ok_or_unchanged g cell with ⟨v, hv⟩ | hg
    · rw [h] at hv; exact Except.noConfusion hv
    · exact hg
  · intro h
    rcases movePieceTo_ok_or_unchanged g cell with ⟨v, hv⟩ | hg
    · rw [h] at hv; exact Except.noConfusion hv
    · exact hg

theorem failed_ops_leave_game_unchanged_witness :
    (movePieceFrom twoKingsGame blackKingCell).2 = twoKingsGame :=
  (failed_ops_leave_game_unchanged twoKingsGame blackKingCell .WrongTurn).1 (by rfl)

/-- C3: every Board mutation (place, remove, move — and through them the
moves movePieceTo applies) preserves the storage invariant, and every
reachable game state satisfies it: each occupied cell stores a piece
whose recorded position equals that cell coordinates. -/
theorem board_position_invariant :
    (∀ b p pos b2, BoardInv b → Board.place b p pos = .ok b2 → BoardInv b2) ∧
    (∀ b pos b2, BoardInv b → Board.remove b pos = .ok b2 → BoardInv b2) ∧
    (∀ b src dst b2, BoardInv b → Board.move b src dst = .ok b2 → BoardInv b2) ∧
    (∀ g, Reachable g → BoardInv g._board) := by
  refine ⟨?_, ?_, ?_, ?_⟩
  · intro b p pos b2 h hok
    unfold Board.place at hok
    split at hok
    · injection hok with hok
      rw [← hok]
      exact boardInv_set_some _ _ _ h rfl
    · exact Except.noConfusion hok
  · intro b pos b2 h hok
    unfold Board.remove at hok
    split at hok
    · injection hok with hok
      rw [← hok]
      exact boardInv_set_none _ _ h
    · exact Except.noConfusion hok
  · intro b src dst b2 h hok
    unfold Board.move at hok
    split at hok
    · split at hok
      · injection hok with hok
        rw [← hok]
        exact boardInv_moveApply _ _ _ h
      · exact Except.noConfusion hok
    · exact Except.noConfusion hok
  · intro g hr
    induction hr with
    | start => exact boardInv_initial
    | stepFrom g2 cell _ ih => rw [movePieceFrom_board]; exact ih
    | stepTo g2 cell _ ih =>
      rcases movePieceTo_board g2 cell with hb | ⟨src, hb⟩
      · rw [hb]; exact ih
      · rw [hb]; exact boardInv_moveApply _ _ _ ih

theorem board_position_invariant_witness : BoardInv Game.new._board :=
  board_position_invariant.2.2.2 Game.new Reachable.start

/-- C5: the board built at Game construction places the BLACK full set
on rows 0-1 (complete back rank on row 0, pawn rank on row 1), the WHITE
mirrored set on rows 6-7 (pawn rank on row 6, identical back rank on row
7), and leaves rows 2-5 empty. -/
theorem initial_board_layout :
    (∀ i : Fin SIZE × Fin SIZE, i.1.val ≤ 1 →
      (getInitialGameBoard i).map Piece.color = some Color.BLACK) ∧
    (∀ i : Fin SIZE × Fin SIZE, 6 ≤ i.1.val →
      (getInitialGameBoard i).map Piece.color = some Color.WHITE) ∧
    (∀ i : Fin SIZE × Fin SIZE, 2 ≤ i.1.val → i.1.val ≤ 5 →
      getInitialGameBoard i = none) ∧
    (∀ i : Fin SIZE × Fin SIZE, i.1.val = 1 ∨ i.1.val = 6 →
      (getInitialGameBoard i).map Piece.type = some PieceType.PAWN) ∧
    (∀ r : Fin SIZE, r.val = 0 ∨ r.val = 7 →
      ((List.finRange SIZE).map fun c =>
          (getInitialGameBoard (r, c)).map Piece.type) =
        [some .ROOK, some .KNIGHT, some .BISHOP, some .QUEEN, some .KING,
          some .BISHOP, some .KNIGHT, some .ROOK]) ∧
    (∀ c : Fin SIZE, (getInitialGameBoard ((0 : Fin SIZE), c)).map Piece.type =
      (getInitialGameBoard ((7 : Fin SIZE), c)).map Piece.type) := by
  refine ⟨?_, ?_, ?_, ?_, ?_, ?_⟩ <;> decide

theorem initial_board_layout_witness :
    (getInitialGameBoard ((0 : Fin SIZE), (0 : Fin SIZE))).map Piece.color =
      some Color.BLACK :=
  initial_board_layout.1 ((0 : Fin SIZE), (0 : Fin SIZE)) (by decide)

/-- C2: the game-state classification follows the mandatory decision
table: CHECKMATE when no legal move exists and the king is attacked,
STALEMATE when no legal move exists and the king is not attacked, and
RUNNING — with the check flag reporting exactly whether the king is
attacked — whenever at least one legal move exists. -/
theorem classify_decision_table (b : Board) (c : Color) :
    (HasLegalMoveP b c →
      classify b c = GameState.RUNNING ∧
        (inCheck b c = true ↔ KingAttackedP b c)) ∧
    (¬ HasLegalMoveP b c → KingAttackedP b c →
      classify b c = GameState.CHECKMATE) ∧
    (¬ HasLegalMoveP b c → ¬ KingAttackedP b c →
      classify b c = GameState.STALEMATE) := by
  refine ⟨?_, ?_, ?_⟩
  · intro h
    have hl : hasAnyLegalMove b c = true := (hasAnyLegalMove_iff b c).mpr h
    exact ⟨by simp [classify, drawConditionHook, hl], inCheck_iff b c⟩
  · intro h hk
    have hl : hasAnyLegalMove b c = false := by
      rw [← Bool.not_eq_true]
      exact fun hx => h ((hasAnyLegalMove_iff b c).mp hx)
    have hc2 : inCheck b c = true := (inCheck_iff b c).mpr hk
    simp [classify, drawConditionHook, hl, hc2]
  · intro h hk
    have hl : hasAnyLegalMove b c = false := by
      rw [← Bool.not_eq_true]
      exact fun hx => h ((hasAnyLegalMove_iff b c).mp hx)
    have hc2 : inCheck b c = false := by
      rw [← Bool.not_eq_true]
      exact fun hx => hk ((inCheck_iff b c).mp hx)
    simp [classify, drawConditionHook, hl, hc2]

theorem classify_decision_table_witness :
    classify twoKingsBoard Color.WHITE = GameState.RUNNING ∧
      (inCheck twoKingsBoard Color.WHITE = true ↔
        KingAttackedP twoKingsBoard Color.WHITE) :=
  (classify_decision_table twoKingsBoard Color.WHITE).1
    ⟨((7 : Fin SIZE), (4 : Fin SIZE)), ⟨.WHITE, .KING, (7, 4)⟩, rfl, rfl, by decide⟩

/-- C1: a raw candidate move of a piece is rejected by the Legality
Filter (kept out of the legal set) exactly when simulating it on a board
copy leaves the mover king attacked — attacked meaning some enemy piece
raw moves include the king square in the resulting position. -/
theorem legalityFilter_rejects_iff_king_attacked (b : Board) (p : Piece)
    (m : Position) (hm : m ∈ p.availableMoves b) :
    m ∉ legalMoves b p ↔ KingAttackedAfterP b p m := by
  rw [← leavesKingAttacked_iff]
  unfold legalMoves
  rw [List.mem_filter]
  constructor
  · intro h
    cases hl : leavesKingAttacked b p m with
    | true => rfl
    | false => exact absurd ⟨hm, by rw [hl]; rfl⟩ h
  · intro h hmem
    rw [h] at hmem
    exact absurd hmem.2 (by simp)

/-- WHITE king on (7,4), its rook on (5,4) pinned by the BLACK rook on
(1,4): the sideways rook move to (5,0) is a raw candidate that breaks
the pin. -/
def pinWhiteRook : Piece := ⟨.WHITE, .ROOK, (5, 4)⟩

def pinnedBoard : Board :=
  ((emptyBoard.set (7, 4) (some ⟨.WHITE, .KING, (7, 4)⟩)).set (5, 4)
      (some pinWhiteRook)).set (1, 4) (some ⟨.BLACK, .ROOK, (1, 4)⟩)

theorem legalityFilter_rejects_iff_king_attacked_witness :
    ((5, 0) : Position) ∉ legalMoves pinnedBoard pinWhiteRook ↔
      KingAttackedAfterP pinnedBoard pinWhiteRook (5, 0) :=
  legalityFilter_rejects_iff_king_attacked pinnedBoard pinWhiteRook (5, 0) (by decide)
